import Mathlib

/-!
Verification of the scoring/ranking engine and the prompt-optimization loop of
the persona-ranker application.

The development is a shallow embedding of the TypeScript sources:
* `src/lib/ranking.ts` — `rankLeadsAgainstPersona` (scoring, sorting, ranking,
  truncation, score-floor filtering, `maxLeads` truncation);
* `src/lib/embeddings.ts` — the persona parser `parseProfileForEmbedding` with
  its markdown stripper, and the weights `AVOID_PENALTY_WEIGHT` /
  `PREFER_BONUS_WEIGHT`;
* `src/lib/prompt-optimizer.ts` — `spearmanCorrelation`, the proposal
  normalization/comparison helpers, and the `runOptimization` loop.

Numbers are modelled as rationals (`ℚ`).  The external embedding and
text-generation providers are modelled as abstract capabilities: an
environment supplies `embed : String → E`, a similarity `cos : E → E → ℚ`
(the code's `cosineSimilarity` on provider vectors), and a proposal oracle
indexed by call number that may fail (`Except`).  JavaScript's stable
`Array.prototype.sort` is modelled by the stable `List.insertionSort`.
Fallible code is modelled with `Except`; the optimization loop additionally
records a trace of capability calls so that call counts are observable.
-/

deriving instance DecidableEq for Except

namespace LROS

/-! ## Scoring engine (`src/lib/ranking.ts`) -/

/-- `const TOP_N = 10` (ranking.ts line 18). -/
def TOP_N : Nat := 10

/-- `const MIN_SCORE = 0.3` (ranking.ts line 19). -/
def MIN_SCORE : ℚ := 3 / 10

/-- `export const AVOID_PENALTY_WEIGHT = 0.35` (embeddings.ts line 102). -/
def AVOID_PENALTY_WEIGHT : ℚ := 35 / 100

/-- `export const PREFER_BONUS_WEIGHT = 0.25` (embeddings.ts line 105). -/
def PREFER_BONUS_WEIGHT : ℚ := 25 / 100

/-- One scored lead before ranks are assigned (the elements of `scored`,
ranking.ts lines 58-68).  `α` is the lead record type (kept abstract: the
pipeline never inspects lead fields, only serializes them via `leadToText`). -/
structure ScoredLead (α : Type) where
  lead : α
  score : ℚ
  similarity : ℚ
deriving DecidableEq

/-- `RankedLeadResult` (ranking.ts lines 11-16). -/
structure RankedLeadResult (α : Type) where
  lead : α
  score : ℚ
  similarity : ℚ
  rank : Nat
deriving DecidableEq

/-- The result record of `rankLeadsAgainstPersona` (ranking.ts lines 80-84). -/
structure RankOutput (α : Type) where
  rankedLeads : List (RankedLeadResult α)
  totalProcessed : Nat
  totalMatched : Nat
deriving DecidableEq

/-- The `options` argument of `rankLeadsAgainstPersona` (ranking.ts line 28). -/
structure RankOptions (E : Type) where
  topN : Option Nat
  maxLeads : Option Nat
  leadEmbeddings : Option (List E)

/-- The external capabilities and configuration the ranking path consumes:
cosine similarity over provider vectors `E`, the embedding capability, the
lead serialization `leadToText`, and the parsed `MAX_LEADS` environment value
(`envMax`, ranking.ts line 42). -/
structure RankEnv (α E : Type) where
  cos : E → E → ℚ
  embed : String → E
  leadToText : α → String
  envMaxLeads : Option Nat

/-- `options?.maxLeads ?? envMax` (ranking.ts line 43). -/
def effectiveMaxLeads (envMax optMax : Option Nat) : Option Nat :=
  match optMax with
  | some m => some m
  | none => envMax

/-- `slice` (ranking.ts lines 41-46): truncate the lead list to the effective
maximum when it is longer. -/
def effectiveSlice {α : Type} (envMax optMax : Option Nat) (leads : List α) : List α :=
  match effectiveMaxLeads envMax optMax with
  | some m => if m < leads.length then leads.take m else leads
  | none => leads

/-- `allEmbeddings` (ranking.ts lines 48-54): caller-supplied lead embeddings
are used only when their count equals the (truncated) lead count, otherwise
the embeddings are computed from `leadToText`. -/
def leadEmbeddingsUsed {α E : Type} (env : RankEnv α E) (opts : RankOptions E)
    (slice : List α) : List E :=
  match opts.leadEmbeddings with
  | some given =>
      if given.length = slice.length then given
      else (slice.map env.leadToText).map env.embed
  | none => (slice.map env.leadToText).map env.embed

/-- Per-lead scoring (the body of the `scored` map, ranking.ts lines 58-67):
cosine similarities to the Target / Avoid / Prefer slot embeddings (0 when the
slot is absent), raw combination with the fixed weights, then normalization —
the clamped affine path when Avoid or Prefer is present, the plain
`(sim + 1) / 2` path otherwise. -/
def scoreLead {α E : Type} (cos : E → E → ℚ) (targetEmbedding : E)
    (avoidEmbedding preferEmbedding : Option E) (lead : α) (emb : E) :
    ScoredLead α :=
  let simTarget := cos targetEmbedding emb
  let simAvoid := match avoidEmbedding with
    | some a => cos a emb
    | none => 0
  let simPrefer := match preferEmbedding with
    | some p => cos p emb
    | none => 0
  let rawScore := simTarget - AVOID_PENALTY_WEIGHT * simAvoid + PREFER_BONUS_WEIGHT * simPrefer
  let normalizedScore :=
    if avoidEmbedding.isSome || preferEmbedding.isSome then
      max 0 (min 1 ((rawScore + 135 / 100) / (26 / 10)))
    else (simTarget + 1) / 2
  { lead := lead, score := normalizedScore, similarity := simTarget }

/-- The descending-score order used by `scored.sort((a, b) => b.score - a.score)`
(ranking.ts line 70): `a` may precede `b` iff `b.score ≤ a.score`. -/
def scoreGE {α : Type} (a b : ScoredLead α) : Prop :=
  b.score ≤ a.score

instance {α : Type} : DecidableRel (@scoreGE α) :=
  fun a b => inferInstanceAs (Decidable (b.score ≤ a.score))

instance {α : Type} : IsTotal (ScoredLead α) scoreGE :=
  ⟨fun a b => le_total b.score a.score⟩

instance {α : Type} : IsTrans (ScoredLead α) scoreGE :=
  ⟨fun _ _ _ h1 h2 => le_trans h2 h1⟩

/-- `scored.sort((a, b) => b.score - a.score)` (ranking.ts line 70).
JavaScript's sort is stable; it is modelled by the stable `insertionSort`
with the descending-score order. -/
def sortByScoreDesc {α : Type} (l : List (ScoredLead α)) : List (ScoredLead α) :=
  l.insertionSort scoreGE

/-- `ranked` rank assignment (ranking.ts lines 72-77): position `index` gets
`rank = index + 1`. -/
def assignRanks {α : Type} (l : List (ScoredLead α)) : List (RankedLeadResult α) :=
  l.enum.map fun p =>
    { lead := p.2.lead, score := p.2.score, similarity := p.2.similarity, rank := p.1 + 1 }

/-! ## Persona parser (`src/lib/embeddings.ts` lines 110-160)

JavaScript string/regex operations are modelled over `List Char`.  The `\s`
character class and `String.prototype.trim` are modelled by `jsIsSpace`; the
multiline `^` anchor looks for the JavaScript line terminators.  The regex
global-replace passes of `stripMarkdown` scan left to right exactly like the
regex engine; they are written with an explicit fuel argument (one unit per
scanned position, so fuel = input length always suffices) to keep every
definition structurally recursive and hence kernel-evaluable. -/

/-- The JavaScript `\s` class (and the character set of `trim`), restricted to
the characters that can occur in this code path. -/
def jsIsSpace (c : Char) : Bool :=
  c = ' ' || c = '\t' || c = '\n' || c = '\r' || c = '\x0b' || c = '\x0c' ||
    c = ' ' || c = '﻿'

/-- JavaScript line terminators (what the multiline `^` anchor matches after). -/
def jsIsLineTerm (c : Char) : Bool :=
  c = '\n' || c = '\r' || c = ' ' || c = ' '

/-- `String.prototype.trim`. -/
def jsTrim (cs : List Char) : List Char :=
  ((cs.dropWhile jsIsSpace).reverse.dropWhile jsIsSpace).reverse

/-- The JavaScript `\w` class (for the `\b` word-boundary assertion). -/
def isWordChar (c : Char) : Bool :=
  c.isAlpha || c.isDigit || c = '_'

/-- Case-insensitive literal match: on success returns the remainder after the
keyword (keywords are given in lowercase). -/
def matchKeywordCI : List Char → List Char → Option (List Char)
  | [], cs => some cs
  | _ :: _, [] => none
  | k :: ks, c :: cs => if c.toLower = k then matchKeywordCI ks cs else none

/-- Match the regex fragment `kw\s*:` (case-insensitive) at the head of the
input; on success returns the remainder after the colon. -/
def matchLabel (kw : List Char) (cs : List Char) : Option (List Char) :=
  match matchKeywordCI kw cs with
  | none => none
  | some rest =>
    match rest.dropWhile jsIsSpace with
    | ':' :: rest2 => some rest2
    | _ => none

def kwTarget : List Char := ['t', 'a', 'r', 'g', 'e', 't']

def kwAvoid : List Char := ['a', 'v', 'o', 'i', 'd']

def kwPrefer : List Char := ['p', 'r', 'e', 'f', 'e', 'r']

/-- Does any of `Target/Avoid/Prefer` match (with `\s*:`) at this position? -/
def matchesAnyLabel (cs : List Char) : Bool :=
  (matchLabel kwTarget cs).isSome || (matchLabel kwAvoid cs).isSome ||
    (matchLabel kwPrefer cs).isSome

/-- `trimmed.search(/\bkw\s*:/i) >= 0`: scan for a word-boundary occurrence of
the label.  `prevWord` tracks whether the previous character is a word
character (the `\b` assertion holds iff it is not). -/
def containsLabelAux (kw : List Char) : Bool → List Char → Bool
  | _, [] => false
  | prevWord, c :: cs =>
    (!prevWord && (matchLabel kw (c :: cs)).isSome) || containsLabelAux kw (isWordChar c) cs

def containsLabel (kw : List Char) (cs : List Char) : Bool :=
  containsLabelAux kw false cs

/-- Find the first word-boundary occurrence of `kw\s*:` and return the
remainder after the colon (`none` when the label does not occur). -/
def findLabelRest (kw : List Char) : Bool → List Char → Option (List Char)
  | _, [] => none
  | prevWord, c :: cs =>
    if !prevWord then
      match matchLabel kw (c :: cs) with
      | some rest => some rest
      | none => findLabelRest kw (isWordChar c) cs
    else findLabelRest kw (isWordChar c) cs

/-- Find the first word-boundary occurrence of `kw\s*:` and return the suffix
starting at the label itself (used by `extractPromptOnly`'s
`trimmed.slice(targetIdx)`). -/
def dropToLabel (kw : List Char) : Bool → List Char → Option (List Char)
  | _, [] => none
  | prevWord, c :: cs =>
    if !prevWord && (matchLabel kw (c :: cs)).isSome then some (c :: cs)
    else dropToLabel kw (isWordChar c) cs

/-- The lazy capture `([\s\S]*?)` bounded by the lookahead
`(?=\b(Target|Avoid|Prefer)\s*:|$)`: take characters up to the earliest
word-boundary occurrence of a section label (or the end of the input). -/
def takeUntilLabel : Bool → List Char → List Char
  | _, [] => []
  | prevWord, c :: cs =>
    if !prevWord && matchesAnyLabel (c :: cs) then []
    else c :: takeUntilLabel (isWordChar c) cs

/-! ### `stripMarkdown` (embeddings.ts lines 110-118) -/

/-- Pass 1, `/\*\*([^*]+)\*\*/g → $1`.  At `**`, a nonempty star-free run must
be followed by `**`; otherwise the engine advances one position. -/
def stripBoldAux : Nat → List Char → List Char
  | 0, cs => cs
  | _ + 1, [] => []
  | fuel + 1, '*' :: '*' :: rest =>
    (match rest.takeWhile (· ≠ '*'), rest.dropWhile (· ≠ '*') with
     | b :: body, '*' :: '*' :: rest3 => (b :: body) ++ stripBoldAux fuel rest3
     | _, _ => '*' :: stripBoldAux fuel ('*' :: rest))
  | fuel + 1, c :: rest => c :: stripBoldAux fuel rest

/-- Pass 2, `/\*([^*]+)\*/g → $1`. -/
def stripEmphAux : Nat → List Char → List Char
  | 0, cs => cs
  | _ + 1, [] => []
  | fuel + 1, '*' :: rest =>
    (match rest.takeWhile (· ≠ '*'), rest.dropWhile (· ≠ '*') with
     | b :: body, '*' :: rest3 => (b :: body) ++ stripEmphAux fuel rest3
     | _, _ => '*' :: stripEmphAux fuel rest)
  | fuel + 1, c :: rest => c :: stripEmphAux fuel rest

/-- Try the bullet pattern `[\s]*[-*]\s+` at a line start; on success returns
the remainder after the match together with whether the last consumed
character is a line terminator (which determines whether the next position is
again a line start). -/
def tryBullet (cs : List Char) : Option (List Char × Bool) :=
  match cs.dropWhile jsIsSpace with
  | c :: rest =>
    if c = '-' || c = '*' then
      match rest.takeWhile jsIsSpace, rest.dropWhile jsIsSpace with
      | [], _ => none
      | w :: ws, rest2 => some (rest2, jsIsLineTerm ((w :: ws).getLast (by simp)))
    else none
  | [] => none

/-- Pass 3, `/^[\s]*[-*]\s+/gm → ''` (bullet markers at line starts). -/
def stripBulletsAux : Nat → Bool → List Char → List Char
  | 0, _, cs => cs
  | _ + 1, _, [] => []
  | fuel + 1, atLineStart, c :: cs =>
    if atLineStart then
      match tryBullet (c :: cs) with
      | some (rest, endsNl) => stripBulletsAux fuel endsNl rest
      | none => c :: stripBulletsAux fuel (jsIsLineTerm c) cs
    else c :: stripBulletsAux fuel (jsIsLineTerm c) cs

/-- Try the header pattern `#+\s*` at a line start. -/
def tryHeader (cs : List Char) : Option (List Char × Bool) :=
  match cs with
  | '#' :: _ =>
    let rest := cs.dropWhile (· = '#')
    match rest.takeWhile jsIsSpace, rest.dropWhile jsIsSpace with
    | [], rest2 => some (rest2, false)
    | w :: ws, rest2 => some (rest2, jsIsLineTerm ((w :: ws).getLast (by simp)))
  | _ => none

/-- Pass 4, `/^#+\s*/gm → ''` (heading markers at line starts). -/
def stripHeadersAux : Nat → Bool → List Char → List Char
  | 0, _, cs => cs
  | _ + 1, _, [] => []
  | fuel + 1, atLineStart, c :: cs =>
    if atLineStart then
      match tryHeader (c :: cs) with
      | some (rest, endsNl) => stripHeadersAux fuel endsNl rest
      | none => c :: stripHeadersAux fuel (jsIsLineTerm c) cs
    else c :: stripHeadersAux fuel (jsIsLineTerm c) cs

/-- Pass 5, `/\n{2,}/g → '\n'`: collapse runs of two or more newlines. -/
def collapseNewlinesAux : Nat → List Char → List Char
  | 0, cs => cs
  | _ + 1, [] => []
  | fuel + 1, '\n' :: rest => '\n' :: collapseNewlinesAux fuel (rest.dropWhile (· = '\n'))
  | fuel + 1, c :: rest => c :: collapseNewlinesAux fuel rest

/-- `stripMarkdown` (embeddings.ts lines 110-118): the five global-replace
passes in source order, then `trim`. -/
def stripMarkdown (cs : List Char) : List Char :=
  let p1 := stripBoldAux cs.length cs
  let p2 := stripEmphAux p1.length p1
  let p3 := stripBulletsAux p2.length true p2
  let p4 := stripHeadersAux p3.length true p3
  let p5 := collapseNewlinesAux p4.length p4
  jsTrim p5

/-! ### `parseProfileForEmbedding` (embeddings.ts lines 124-160) -/

/-- The parsed `{targetText, avoidText, preferText}` triple. -/
structure ParsedProfile where
  targetText : String
  avoidText : Option String
  preferText : Option String
deriving DecidableEq

/-- `extractSection(fromLabel)` (embeddings.ts lines 131-136): first
word-boundary occurrence of the label, greedy `\s*` after the colon, lazy
capture up to the next label or the end, then `trim` and `stripMarkdown`.
Returns `[]` both when the label does not occur and when the capture is empty
(the source returns `''` in both cases). -/
def extractSection (kw : List Char) (trimmed : List Char) : List Char :=
  match findLabelRest kw false trimmed with
  | none => []
  | some rest => stripMarkdown (jsTrim (takeUntilLabel false (rest.dropWhile jsIsSpace)))

/-- `parseProfileForEmbedding` (embeddings.ts lines 124-160). -/
def parseProfileForEmbedding (characteristics : String) : ParsedProfile :=
  let trimmed := jsTrim characteristics.data
  let hasStructuredSections :=
    containsLabel kwTarget trimmed || containsLabel kwAvoid trimmed ||
      containsLabel kwPrefer trimmed
  let targetRaw := extractSection kwTarget trimmed
  let avoidRaw : Option (List Char) :=
    if containsLabel kwAvoid trimmed then some (extractSection kwAvoid trimmed) else none
  let preferRaw : Option (List Char) :=
    if containsLabel kwPrefer trimmed then some (extractSection kwPrefer trimmed) else none
  if !hasStructuredSections && 0 < trimmed.length then
    { targetText := "Target profile: " ++ (stripMarkdown trimmed).asString
      avoidText := none
      preferText := none }
  else
    { targetText := if targetRaw ≠ [] then "Target profile: " ++ targetRaw.asString else ""
      avoidText := avoidRaw.bind fun a =>
        if a ≠ [] then some ("Profiles to avoid: " ++ a.asString) else none
      preferText := preferRaw.bind fun p =>
        if p ≠ [] then some ("Profiles we prefer: " ++ p.asString) else none }

/-! ## Prompt optimizer (`src/lib/prompt-optimizer.ts`) -/

/-- `spearmanCorrelation` (prompt-optimizer.ts lines 22-29): Spearman rank
correlation `1 − 6·Σd_i² / (n·(n²−1))`, returning the neutral value 0 when the
arrays have different lengths or fewer than two entries. -/
def spearmanCorrelation (ourRanks goldRanks : List ℚ) : ℚ :=
  let n := ourRanks.length
  if n ≠ goldRanks.length ∨ n < 2 then 0
  else
    let d := (ourRanks.zip goldRanks).map fun p => p.1 - p.2
    let dSq := d.map fun x => x * x
    let sumDSq := dSq.sum
    1 - 6 * sumDSq / ((n : ℚ) * ((n : ℚ) * (n : ℚ) - 1))

/-- `p.trim().replace(/\s+/g, ' ')` — collapse each maximal whitespace run to
one space (fueled scan, one unit per position). -/
def collapseWhitespaceAux : Nat → List Char → List Char
  | 0, cs => cs
  | _ + 1, [] => []
  | fuel + 1, c :: cs =>
    if jsIsSpace c then ' ' :: collapseWhitespaceAux fuel (cs.dropWhile jsIsSpace)
    else c :: collapseWhitespaceAux fuel cs

/-- `normalizePromptForCompare` (prompt-optimizer.ts lines 303-305): trim, then
collapse internal whitespace.  Note: there is no lowercasing here. -/
def normalizePromptForCompare (p : String) : String :=
  (collapseWhitespaceAux (jsTrim p.data).length (jsTrim p.data)).asString

/-- `isSamePrompt` (prompt-optimizer.ts lines 307-309). -/
def isSamePrompt (a b : String) : Bool :=
  normalizePromptForCompare a = normalizePromptForCompare b

/-- `extractPromptOnly` (prompt-optimizer.ts lines 311-318): slice from the
first `\bTarget\s*:/i` occurrence when present; otherwise return the trimmed
text (the source's final two branches both return `trimmed`). -/
def extractPromptOnly (text : String) : String :=
  let trimmed := jsTrim text.data
  match dropToLabel kwTarget false trimmed with
  | some suffix => (jsTrim suffix).asString
  | none => trimmed.asString

/-- The capabilities consumed by `runOptimization`: the evaluation path
(`evaluatePromptOnEvalSet` on the fixed evaluation set with its precomputed
lead embeddings — a deterministic, fallible function of the persona text) and
the proposal capability (the raw LLM reply of `proposeImprovedPrompt`,
indexed by call number so that an arbitrary — including adversarial —
sequence of replies is covered; the `requireDifferent` flag is the last
argument).  The feedback string passed to the provider does not influence the
loop's control flow and is absorbed into the oracle. -/
structure OptEnv where
  evaluate : String → Except String ℚ
  propose : Nat → String → ℚ → List (String × ℚ) → Bool → Except String String

/-- Trace events: one `evaluated` per evaluation of a persona, one `proposed`
per call to the proposal capability (with its `requireDifferent` flag). -/
inductive OptEvent where
  | evaluated (prompt : String) (score : ℚ)
  | proposed (prompt : String) (requireDifferent : Bool)
deriving DecidableEq

/-- The loop state of `runOptimization` (prompt-optimizer.ts lines 352-355),
extended with ghost instrumentation: the number of proposal calls made and the
trace of capability calls. -/
structure OptState where
  bestPrompt : String
  bestScore : ℚ
  history : List (String × ℚ)
  currentPrompt : String
  proposeCalls : Nat
  trace : List OptEvent
deriving DecidableEq

/-- `history.slice(-3)` (prompt-optimizer.ts line 366). -/
def sliceLast3 {β : Type} (l : List β) : List β :=
  l.drop (l.length - 3)

/-- The outcome of the proposal phase of one iteration: the next current
prompt, the updated proposal-call counter, and the propose trace events. -/
structure ProposeOutcome where
  nextPrompt : String
  calls : Nat
  events : List OptEvent
deriving DecidableEq

/-- The proposal phase of one loop iteration (prompt-optimizer.ts lines
368-376): ask for a proposal (the provider applies `extractPromptOnly` to the
raw reply); if it normalizes to the same text as the current prompt,
re-request exactly once with `requireDifferent`; an absent or too-short final
proposal is replaced by the best-known prompt.  A provider failure is *not*
caught — it propagates (there is no try/catch around the proposal calls). -/
def proposePhase (env : OptEnv) (k : Nat) (currentPrompt : String) (score : ℚ)
    (recent : List (String × ℚ)) (bestPrompt : String) :
    Except String ProposeOutcome :=
  match env.propose k currentPrompt score recent false with
  | .error e => .error e
  | .ok raw =>
    let firstProposed := extractPromptOnly raw
    let afterSame : Except String (String × Nat × List OptEvent) :=
      if isSamePrompt firstProposed currentPrompt then
        match env.propose (k + 1) currentPrompt score recent true with
        | .error e => .error e
        | .ok raw2 =>
          .ok (extractPromptOnly raw2, k + 2,
            [.proposed currentPrompt false, .proposed currentPrompt true])
      else .ok (firstProposed, k + 1, [.proposed currentPrompt false])
    match afterSame with
    | .error e => .error e
    | .ok (proposed, calls, events) =>
      let next := if proposed = "" ∨ proposed.length < 20 then bestPrompt else proposed
      .ok { nextPrompt := next, calls := calls, events := events }

/-- The evaluation bookkeeping of one iteration (prompt-optimizer.ts lines
358-364): push `(currentPrompt, score)` onto the history (and the trace),
then update the best score/prompt when the new score is strictly greater. -/
def afterEval (st : OptState) (score : ℚ) : OptState :=
  let st1 : OptState :=
    { st with
      history := st.history ++ [(st.currentPrompt, score)]
      trace := st.trace ++ [.evaluated st.currentPrompt score] }
  if st1.bestScore < score then
    { st1 with bestScore := score, bestPrompt := st1.currentPrompt }
  else st1

/-- Apply an accepted proposal outcome to the loop state (prompt-optimizer.ts
lines 368-376): the next current prompt, the updated call counter, and the
propose trace events. -/
def applyProposal (st : OptState) (out : ProposeOutcome) : OptState :=
  { st with
    currentPrompt := out.nextPrompt
    proposeCalls := out.calls
    trace := st.trace ++ out.events }

/-- The `for` loop of `runOptimization` (prompt-optimizer.ts lines 357-377),
by recursion on the number of iterations still to run (`itersLeft`;
`iter = maxIterations − itersLeft`, and `iter === maxIterations - 1` is
`itersLeft = 1`, in which case the iteration evaluates and stops without a
further proposal). -/
def optLoop (env : OptEnv) : Nat → OptState → Except String OptState
  | 0, st => .ok st
  | itersLeft + 1, st =>
    match env.evaluate st.currentPrompt with
    | .error e => .error e
    | .ok score =>
      if itersLeft = 0 then .ok (afterEval st score)
      else
        match proposePhase env (afterEval st score).proposeCalls
            (afterEval st score).currentPrompt score
            (sliceLast3 (afterEval st score).history) (afterEval st score).bestPrompt with
        | .error e => .error e
        | .ok out => optLoop env itersLeft (applyProposal (afterEval st score) out)

/-- `runOptimization` down to its internal final state (ghost fields
included): best score starts at the sentinel −2, best prompt and current
prompt start at the caller-supplied initial text. -/
def runOptimizationState (env : OptEnv) (initialPrompt : String)
    (maxIterations : Nat) : Except String OptState :=
  optLoop env maxIterations
    { bestPrompt := initialPrompt, bestScore := -2, history := []
      currentPrompt := initialPrompt, proposeCalls := 0, trace := [] }

/-- The `OptimizationResult` record (prompt-optimizer.ts lines 334-339). -/
structure OptimizationResult where
  bestPrompt : String
  bestScore : ℚ
  history : List (String × ℚ)
  iterations : Nat
deriving DecidableEq

/-- `runOptimization` (prompt-optimizer.ts lines 344-380). -/
def runOptimization (env : OptEnv) (initialPrompt : String) (maxIterations : Nat) :
    Except String OptimizationResult :=
  (runOptimizationState env initialPrompt maxIterations).map fun st =>
    { bestPrompt := st.bestPrompt, bestScore := st.bestScore
      history := st.history, iterations := maxIterations }

/-! ## The full ranking pipeline (`rankLeadsAgainstPersona`, ranking.ts 25-85) -/

/-- The `scored` list (ranking.ts lines 30-68): parse the persona, embed the
present slots, truncate the lead list, pick the lead embeddings, and score
each lead against the slot embeddings. -/
def scoredStage {α E : Type} (env : RankEnv α E) (leads : List α)
    (characteristics : String) (opts : RankOptions E) : List (ScoredLead α) :=
  let parsed := parseProfileForEmbedding characteristics
  let targetEmbedding := env.embed parsed.targetText
  let avoidEmbedding := parsed.avoidText.map env.embed
  let preferEmbedding := parsed.preferText.map env.embed
  let slice := effectiveSlice env.envMaxLeads opts.maxLeads leads
  let allEmbeddings := leadEmbeddingsUsed env opts slice
  (slice.zip allEmbeddings).map fun pr =>
    scoreLead env.cos targetEmbedding avoidEmbedding preferEmbedding pr.1 pr.2

/-- The `ranked` list (ranking.ts lines 70-77): stable descending sort,
truncation to the top-N (default `TOP_N = 10`), dense rank assignment. -/
def rankedStage {α E : Type} (env : RankEnv α E) (leads : List α)
    (characteristics : String) (opts : RankOptions E) : List (RankedLeadResult α) :=
  assignRanks ((sortByScoreDesc (scoredStage env leads characteristics opts)).take
    (opts.topN.getD TOP_N))

/-- The `filtered` list (ranking.ts line 78): drop entries scoring below
`MIN_SCORE` from the already-truncated list. -/
def filteredStage {α E : Type} (env : RankEnv α E) (leads : List α)
    (characteristics : String) (opts : RankOptions E) : List (RankedLeadResult α) :=
  (rankedStage env leads characteristics opts).filter fun item =>
    decide (MIN_SCORE ≤ item.score)

/-- `rankLeadsAgainstPersona` (ranking.ts lines 25-85): empty-profile guard,
then the scored/sorted/ranked/filtered pipeline; `totalProcessed` is the
length of the (possibly truncated) lead slice. -/
def rankLeadsAgainstPersona {α E : Type} (env : RankEnv α E) (leads : List α)
    (characteristics : String) (opts : RankOptions E) :
    Except String (RankOutput α) :=
  let parsed := parseProfileForEmbedding characteristics
  if jsTrim parsed.targetText.data = [] then .error "Profile cannot be empty."
  else
    .ok
      { rankedLeads := filteredStage env leads characteristics opts
        totalProcessed := (effectiveSlice env.envMaxLeads opts.maxLeads leads).length
        totalMatched := (filteredStage env leads characteristics opts).length }

/-- The rank list `1, 2, …, N` (as rationals), for stating the Spearman
properties about valid permutations of `1..N`. -/
def oneToN (N : Nat) : List ℚ :=
  (List.range N).map fun k : Nat => (k : ℚ) + 1

/-! ## Trace helpers and concrete instances used in the closed checks -/

/-- Is a trace event an evaluation? -/
def isEvalEvent : OptEvent → Bool
  | .evaluated _ _ => true
  | .proposed _ _ => false

/-- Character-wise lowercasing (to state that two strings differ only in
letter case). -/
def lowerStr (s : String) : String :=
  (s.data.map Char.toLower).asString

/-- Similarity capability that always answers `1/2` (a value cosine
similarity can take). -/
def unitEnvHalf : RankEnv Nat Unit :=
  { cos := fun _ _ => 1 / 2, embed := fun _ => (), leadToText := fun _ => "lead"
    envMaxLeads := none }

/-- "Similarity" capability answering the finite value `2`, outside the
cosine range `[-1, 1]`. -/
def unitEnvTwo : RankEnv Nat Unit :=
  { cos := fun _ _ => 2, embed := fun _ => (), leadToText := fun _ => "lead"
    envMaxLeads := none }

/-- Environment whose similarity returns the lead-side embedding value, so
that caller-supplied lead embeddings directly prescribe the similarities. -/
def qEnv : RankEnv Nat ℚ :=
  { cos := fun _ b => b, embed := fun _ => 0, leadToText := fun _ => "lead"
    envMaxLeads := none }

/-- Ten leads. -/
def tenLeads : List Nat := [1, 2, 3, 4, 5, 6, 7, 8, 9, 10]

/-- Ten lead embeddings for `qEnv`, giving strictly decreasing plain-path
scores `(e+1)/2`; the tenth gives `1/4 < 3/10`. -/
def tenEmbeddings : List ℚ :=
  [1, 8/10, 6/10, 4/10, 2/10, 0, -1/10, -2/10, -3/10, -1/2]

/-- Expected output of the ten-lead check: ranks 1..10 assigned after the
stable sort, then the tenth entry (score `1/4 < 3/10`) dropped by the floor
filter, leaving nine entries. -/
def tenOut : RankOutput Nat :=
  { rankedLeads :=
      [ { lead := 1, score := 1, similarity := 1, rank := 1 }
      , { lead := 2, score := 9/10, similarity := 8/10, rank := 2 }
      , { lead := 3, score := 8/10, similarity := 6/10, rank := 3 }
      , { lead := 4, score := 7/10, similarity := 4/10, rank := 4 }
      , { lead := 5, score := 6/10, similarity := 2/10, rank := 5 }
      , { lead := 6, score := 1/2, similarity := 0, rank := 6 }
      , { lead := 7, score := 9/20, similarity := -1/10, rank := 7 }
      , { lead := 8, score := 2/5, similarity := -2/10, rank := 8 }
      , { lead := 9, score := 7/20, similarity := -3/10, rank := 9 } ]
    totalProcessed := 10
    totalMatched := 9 }

/-- A persona text used in the optimizer checks (length 30 ≥ 20). -/
def initPersona : String := "Target: software engineers now"

/-- Optimizer environment whose proposal capability always fails. -/
def envProposeFails : OptEnv :=
  { evaluate := fun _ => .ok 0, propose := fun _ _ _ _ _ => .error "proposal failed" }

/-- Optimizer environment whose proposal capability returns the upper-cased
variant of `initPersona` (differing from it only in letter case). -/
def envProposeUpper : OptEnv :=
  { evaluate := fun _ => .ok 0
    propose := fun _ _ _ _ _ => .ok "TARGET: SOFTWARE ENGINEERS NOW" }

/-- Optimizer environment whose first proposal echoes the current persona
(triggering the must-differ re-request) and whose re-request returns a fresh
text. -/
def envProposeEcho : OptEnv :=
  { evaluate := fun _ => .ok 0
    propose := fun _ cur _ _ rd =>
      if rd then .ok "Target: expanded engineers and founders" else .ok cur }

/-- Well-behaved optimizer environment used in witnesses. -/
def envBenign : OptEnv :=
  { evaluate := fun _ => .ok (1 / 2)
    propose := fun _ _ _ _ _ => .ok "Target: engineers and founders" }

/-- Expected result of the two-iteration benign optimizer run. -/
def benignRes : OptimizationResult :=
  { bestPrompt := initPersona, bestScore := 1 / 2,
    history := [(initPersona, 1 / 2), ("Target: engineers and founders", 1 / 2)],
    iterations := 2 }

/-- Expected internal state of the one-iteration benign run. -/
def benignState1 : OptState :=
  { bestPrompt := initPersona, bestScore := 1 / 2,
    history := [(initPersona, 1 / 2)],
    currentPrompt := initPersona, proposeCalls := 0,
    trace := [.evaluated initPersona (1 / 2)] }

/-- Expected internal state of the two-iteration run against the upper-casing
proposal oracle: a single proposal call (no must-differ re-request), and the
case-variant proposal becomes the current prompt. -/
def upperRunState : OptState :=
  { bestPrompt := initPersona, bestScore := 0,
    history := [(initPersona, 0), ("TARGET: SOFTWARE ENGINEERS NOW", 0)],
    currentPrompt := "TARGET: SOFTWARE ENGINEERS NOW", proposeCalls := 1,
    trace := [.evaluated initPersona 0, .proposed initPersona false,
              .evaluated "TARGET: SOFTWARE ENGINEERS NOW" 0] }

/-- Expected proposal-phase outcome against the echoing oracle: two calls,
the second with the must-differ flag. -/
def echoOutcome : ProposeOutcome :=
  { nextPrompt := "Target: expanded engineers and founders", calls := 2,
    events := [.proposed initPersona false, .proposed initPersona true] }

/-! ## Stated claim conclusions (predicates used by theorems and their
witnesses) -/

/-- The raw-score formula of the scoring engine, as observed on every entry
of the returned ranking: the similarity field is the Target cosine, and the
score is the normalization of
`simTarget − 0.35·simAvoid + 0.25·simPrefer`, where an absent slot
contributes a zero similarity term. -/
def C1Conclusion {α E : Type} (env : RankEnv α E) (leads : List α) (chars : String)
    (opts : RankOptions E) (out : RankOutput α) : Prop :=
  AVOID_PENALTY_WEIGHT = 35 / 100 ∧ PREFER_BONUS_WEIGHT = 25 / 100 ∧
  ∀ r ∈ out.rankedLeads, ∃ pr,
    pr ∈ (effectiveSlice env.envMaxLeads opts.maxLeads leads).zip
        (leadEmbeddingsUsed env opts (effectiveSlice env.envMaxLeads opts.maxLeads leads)) ∧
    r.lead = pr.1 ∧
    r.similarity = env.cos (env.embed (parseProfileForEmbedding chars).targetText) pr.2 ∧
    r.score =
      (let parsed := parseProfileForEmbedding chars
       let simTarget := env.cos (env.embed parsed.targetText) pr.2
       let simAvoid := match parsed.avoidText with
         | some t => env.cos (env.embed t) pr.2
         | none => 0
       let simPrefer := match parsed.preferText with
         | some t => env.cos (env.embed t) pr.2
         | none => 0
       let rawScore := simTarget - 35 / 100 * simAvoid + 25 / 100 * simPrefer
       if parsed.avoidText.isSome || parsed.preferText.isSome then
         max 0 (min 1 ((rawScore + 135 / 100) / (26 / 10)))
       else (simTarget + 1) / 2)

/-- The ranking discipline of the scoring engine: stable descending sort,
dense ranks, truncation to top-N, and only then the score floor — so a
below-floor entry inside the top 10 shrinks the result below 10 entries. -/
def C2Conclusion {α E : Type} (env : RankEnv α E) (leads : List α) (chars : String)
    (opts : RankOptions E) (out : RankOutput α) : Prop :=
  (sortByScoreDesc (scoredStage env leads chars opts)).Perm (scoredStage env leads chars opts) ∧
  List.Sorted scoreGE (sortByScoreDesc (scoredStage env leads chars opts)) ∧
  (∀ a b : ScoredLead α, List.Sublist [a, b] (scoredStage env leads chars opts) → b.score ≤ a.score →
    List.Sublist [a, b] (sortByScoreDesc (scoredStage env leads chars opts))) ∧
  (∀ (i : Nat) (hi : i < (rankedStage env leads chars opts).length),
    ((rankedStage env leads chars opts).get ⟨i, hi⟩).rank = i + 1) ∧
  out.rankedLeads =
    (rankedStage env leads chars opts).filter (fun item => decide (MIN_SCORE ≤ item.score)) ∧
  out.rankedLeads.length ≤ opts.topN.getD TOP_N ∧
  (∀ hi : 9 < (rankedStage env leads chars opts).length,
    opts.topN = none →
    ((rankedStage env leads chars opts).get ⟨9, hi⟩).score < MIN_SCORE →
    out.rankedLeads.length < 10)

/-- The proposal-comparison discipline: `isSamePrompt` compares the
whitespace-normalized texts (no lowercasing), and on a same-normalizing first
proposal the loop re-requests exactly once, with the must-differ flag. -/
def C9Conclusion : Prop :=
  (∀ a b : String, isSamePrompt a b = true ↔
    normalizePromptForCompare a = normalizePromptForCompare b) ∧
  (∀ (env : OptEnv) (k : Nat) (cur : String) (score : ℚ)
      (recent : List (String × ℚ)) (best raw : String) (out : ProposeOutcome),
    env.propose k cur score recent false = .ok raw →
    proposePhase env k cur score recent best = .ok out →
    (isSamePrompt (extractPromptOnly raw) cur = true →
      out.calls = k + 2 ∧ out.events = [.proposed cur false, .proposed cur true]) ∧
    (isSamePrompt (extractPromptOnly raw) cur = false →
      out.calls = k + 1 ∧ out.events = [.proposed cur false]))

/-! ## Helper lemmas about the ranking pipeline -/

theorem rankLeads_ok {α E : Type} {env : RankEnv α E} {leads : List α} {chars : String}
    {opts : RankOptions E} {out : RankOutput α}
    (h : rankLeadsAgainstPersona env leads chars opts = .ok out) :
    out.rankedLeads = filteredStage env leads chars opts ∧
    out.totalProcessed = (effectiveSlice env.envMaxLeads opts.maxLeads leads).length ∧
    out.totalMatched = (filteredStage env leads chars opts).length := by
  simp only [rankLeadsAgainstPersona] at h
  split at h
  · exact absurd h (by simp)
  · injection h with h
    subst h
    exact ⟨rfl, rfl, rfl⟩

theorem mem_scoredStage {α E : Type} {env : RankEnv α E} {leads : List α} {chars : String}
    {opts : RankOptions E} {sc : ScoredLead α}
    (h : sc ∈ scoredStage env leads chars opts) :
    ∃ pr, pr ∈ (effectiveSlice env.envMaxLeads opts.maxLeads leads).zip
        (leadEmbeddingsUsed env opts (effectiveSlice env.envMaxLeads opts.maxLeads leads)) ∧
      sc = scoreLead env.cos (env.embed (parseProfileForEmbedding chars).targetText)
        ((parseProfileForEmbedding chars).avoidText.map env.embed)
        ((parseProfileForEmbedding chars).preferText.map env.embed) pr.1 pr.2 := by
  unfold scoredStage at h
  obtain ⟨pr, hpr, hf⟩ := List.mem_map.mp h
  exact ⟨pr, hpr, hf.symm⟩

theorem mem_filteredStage {α E : Type} {env : RankEnv α E} {leads : List α} {chars : String}
    {opts : RankOptions E} {r : RankedLeadResult α}
    (hr : r ∈ filteredStage env leads chars opts) :
    ∃ sc ∈ scoredStage env leads chars opts,
      r.lead = sc.lead ∧ r.score = sc.score ∧ r.similarity = sc.similarity ∧
      MIN_SCORE ≤ r.score ∧ 1 ≤ r.rank ∧ r.rank ≤ opts.topN.getD TOP_N := by
  unfold filteredStage at hr
  obtain ⟨hmem, hsc⟩ := List.mem_filter.mp hr
  have hscore : MIN_SCORE ≤ r.score := of_decide_eq_true hsc
  unfold rankedStage assignRanks at hmem
  obtain ⟨p, hp, hfp⟩ := List.mem_map.mp hmem
  obtain ⟨i, x⟩ := p
  have hgt : ((sortByScoreDesc (scoredStage env leads chars opts)).take
      (opts.topN.getD TOP_N))[i]? = some x := by
    exact (List.mk_mem_enum_iff_getElem?).mp hp
  obtain ⟨hilt, hix⟩ := List.getElem?_eq_some_iff.mp hgt
  have hxmem : x ∈ (sortByScoreDesc (scoredStage env leads chars opts)).take
      (opts.topN.getD TOP_N) := by
    exact hix ▸ List.getElem_mem hilt
  have hxsorted : x ∈ sortByScoreDesc (scoredStage env leads chars opts) :=
    List.mem_of_mem_take hxmem
  have hxscored : x ∈ scoredStage env leads chars opts :=
    (List.perm_insertionSort scoreGE (scoredStage env leads chars opts)).mem_iff.mp hxsorted
  have hrank : i + 1 ≤ opts.topN.getD TOP_N := by
    have := List.length_take_le (opts.topN.getD TOP_N)
      (sortByScoreDesc (scoredStage env leads chars opts))
    omega
  refine ⟨x, hxscored, ?_, ?_, ?_, hscore, ?_, ?_⟩
  · rw [← hfp]
  · rw [← hfp]
  · rw [← hfp]
  · rw [← hfp]; exact Nat.le_add_left 1 i
  · rw [← hfp]; exact hrank

theorem filteredStage_subset_ranked {α E : Type} {env : RankEnv α E} {leads : List α}
    {chars : String} {opts : RankOptions E} :
    (filteredStage env leads chars opts).length ≤ opts.topN.getD TOP_N := by
  have h1 : (filteredStage env leads chars opts).length ≤
      (rankedStage env leads chars opts).length :=
    List.length_filter_le _ _
  have h2 : (rankedStage env leads chars opts).length ≤ opts.topN.getD TOP_N := by
    unfold rankedStage assignRanks
    rw [List.length_map, List.enum_length]
    exact List.length_take_le _ _
  omega

/-! ## Claim C1 -/

/-- C1: for every lead scored in one call to `rankLeadsAgainstPersona`, the
per-lead raw score equals `simTarget − 0.35·simAvoid + 0.25·simPrefer`, where
the similarities are the cosines of the lead embedding with the
Target/Avoid/Prefer slot embeddings (a term is 0 when its slot is absent) and
the weights are the fixed constants `AVOID_PENALTY_WEIGHT = 0.35` and
`PREFER_BONUS_WEIGHT = 0.25`; every returned entry's score is the
normalization of exactly that raw combination. -/
theorem claim1_raw_score_formula {α E : Type} (env : RankEnv α E) (leads : List α)
    (chars : String) (opts : RankOptions E) (out : RankOutput α)
    (h : rankLeadsAgainstPersona env leads chars opts = .ok out) :
    C1Conclusion env leads chars opts out := by
  obtain ⟨hlead, -, -⟩ := rankLeads_ok h
  refine ⟨rfl, rfl, ?_⟩
  intro r hr
  rw [hlead] at hr
  obtain ⟨sc, hsc, hl, hs, hsim, -, -, -⟩ := mem_filteredStage hr
  obtain ⟨pr, hpr, hsceq⟩ := mem_scoredStage hsc
  refine ⟨pr, hpr, ?_, ?_, ?_⟩
  · rw [hl, hsceq]; rfl
  · rw [hsim, hsceq]; rfl
  · rw [hs, hsceq]
    cases hA : (parseProfileForEmbedding chars).avoidText <;>
      cases hP : (parseProfileForEmbedding chars).preferText <;>
        simp [scoreLead, hA, hP, AVOID_PENALTY_WEIGHT, PREFER_BONUS_WEIGHT]

/-- Witness for C1 at a concrete structured persona: all three slots present,
similarity `1/2` everywhere, affine normalization `(9/20 + 27/20)/(26/10) = 9/13`. -/
theorem claim1_raw_score_formula_witness :
    rankLeadsAgainstPersona unitEnvHalf [5]
        "Target: VP Sales. Avoid: HR. Prefer: enterprise." ⟨none, none, none⟩ =
      .ok { rankedLeads := [{ lead := 5, score := 9 / 13, similarity := 1 / 2, rank := 1 }],
            totalProcessed := 1, totalMatched := 1 } ∧
    C1Conclusion unitEnvHalf [5] "Target: VP Sales. Avoid: HR. Prefer: enterprise."
      ⟨none, none, none⟩
      { rankedLeads := [{ lead := 5, score := 9 / 13, similarity := 1 / 2, rank := 1 }],
        totalProcessed := 1, totalMatched := 1 } :=
  ⟨by with_unfolding_all decide,
   claim1_raw_score_formula _ _ _ _ _ (by with_unfolding_all decide)⟩

/-! ## Claim C3 -/

/-- C3 counterexample: the plain normalization path `(simTarget + 1) / 2` is
not clamped, so a finite similarity input outside `[-1, 1]` (here the value
`2`, with no Avoid/Prefer slot) makes `rankLeadsAgainstPersona` return the
normalized score `3/2 ∉ [0, 1]` — the claim is false for arbitrary finite
inputs. -/
theorem claim3_plain_path_exceeds_one :
    rankLeadsAgainstPersona unitEnvTwo [0] "hello friend" ⟨none, none, none⟩ =
      .ok { rankedLeads := [{ lead := 0, score := 3 / 2, similarity := 2, rank := 1 }],
            totalProcessed := 1, totalMatched := 1 } ∧
    ¬((3 : ℚ) / 2 ≤ 1) :=
  ⟨by with_unfolding_all decide, by norm_num⟩

/-- The score produced by the per-lead scoring is in `[0, 1]`: on the clamped
affine path unconditionally, and on the plain path whenever the similarity
lies in the cosine range `[-1, 1]`. -/
theorem scoreLead_score_bounds {α E : Type} (c : E → E → ℚ) (tE : E)
    (aE pE : Option E) (lead : α) (emb : E)
    (hc : -1 ≤ c tE emb ∧ c tE emb ≤ 1) :
    0 ≤ (scoreLead c tE aE pE lead emb).score ∧
      (scoreLead c tE aE pE lead emb).score ≤ 1 := by
  unfold scoreLead
  cases hb : aE.isSome || pE.isSome <;> simp only [hb, if_true, if_false, Bool.false_eq_true]
  · obtain ⟨h1, h2⟩ := hc
    constructor <;> linarith
  · exact ⟨le_max_left 0 _, max_le (by norm_num) (min_le_left 1 _)⟩

/-- C3 (amended): every score returned by `rankLeadsAgainstPersona` lies in
`[0, 1]` provided the similarity capability stays in the cosine range
`[-1, 1]`; the clamped affine path needs no such hypothesis. -/
theorem claim3_normalized_in_unit_interval {α E : Type} (env : RankEnv α E)
    (leads : List α) (chars : String) (opts : RankOptions E) (out : RankOutput α)
    (hcos : ∀ a b, -1 ≤ env.cos a b ∧ env.cos a b ≤ 1)
    (h : rankLeadsAgainstPersona env leads chars opts = .ok out) :
    ∀ r ∈ out.rankedLeads, 0 ≤ r.score ∧ r.score ≤ 1 := by
  obtain ⟨hlead, -, -⟩ := rankLeads_ok h
  intro r hr
  rw [hlead] at hr
  obtain ⟨sc, hsc, -, hs, -, -, -, -⟩ := mem_filteredStage hr
  obtain ⟨pr, -, hsceq⟩ := mem_scoredStage hsc
  rw [hs, hsceq]
  exact scoreLead_score_bounds _ _ _ _ _ _ (hcos _ _)

/-- Witness for the amended C3 at a concrete run with cosine value `1/2`. -/
theorem claim3_normalized_in_unit_interval_witness :
    (∀ a b : Unit, -1 ≤ unitEnvHalf.cos a b ∧ unitEnvHalf.cos a b ≤ 1) ∧
    rankLeadsAgainstPersona unitEnvHalf [7] "hello friend" ⟨none, none, none⟩ =
      .ok { rankedLeads := [{ lead := 7, score := 3 / 4, similarity := 1 / 2, rank := 1 }],
            totalProcessed := 1, totalMatched := 1 } ∧
    ∀ r ∈ ({ rankedLeads := [{ lead := 7, score := 3 / 4, similarity := 1 / 2, rank := 1 }],
             totalProcessed := 1, totalMatched := 1 } : RankOutput Nat).rankedLeads,
      0 ≤ r.score ∧ r.score ≤ 1 :=
  ⟨fun _ _ => by constructor <;> norm_num [unitEnvHalf],
   by with_unfolding_all decide,
   claim3_normalized_in_unit_interval unitEnvHalf [7] "hello friend" ⟨none, none, none⟩ _
     (fun _ _ => by constructor <;> norm_num [unitEnvHalf])
     (by with_unfolding_all decide)⟩

/-! ## Claim C10 -/

/-- C10: when an effective `maxLeads` bound `m` is in force (from the options
or the `MAX_LEADS` environment value) and the lead list is longer, the
pipeline silently scores only the first `m` leads: `totalProcessed = m` (not
the input length), every returned entry's lead comes from `leads.take m`, and
caller-supplied lead embeddings are accepted exactly when their count equals
the truncated count `m`. -/
theorem claim10_max_leads_truncation {α E : Type} (env : RankEnv α E) (leads : List α)
    (chars : String) (opts : RankOptions E) (out : RankOutput α) (m : Nat)
    (hm : effectiveMaxLeads env.envMaxLeads opts.maxLeads = some m)
    (hlen : m < leads.length)
    (h : rankLeadsAgainstPersona env leads chars opts = .ok out) :
    out.totalProcessed = m ∧
    out.totalProcessed < leads.length ∧
    (∀ r ∈ out.rankedLeads, r.lead ∈ leads.take m) ∧
    (∀ le : List E, opts.leadEmbeddings = some le →
      (le.length = m →
        leadEmbeddingsUsed env opts (effectiveSlice env.envMaxLeads opts.maxLeads leads) = le) ∧
      (le.length ≠ m →
        leadEmbeddingsUsed env opts (effectiveSlice env.envMaxLeads opts.maxLeads leads) =
          ((leads.take m).map env.leadToText).map env.embed)) := by
  have hslice : effectiveSlice env.envMaxLeads opts.maxLeads leads = leads.take m := by
    unfold effectiveSlice
    rw [hm]
    simp [hlen]
  have hslicelen : (effectiveSlice env.envMaxLeads opts.maxLeads leads).length = m := by
    rw [hslice, List.length_take]
    omega
  obtain ⟨hlead, hproc, -⟩ := rankLeads_ok h
  refine ⟨by rw [hproc, hslicelen], by rw [hproc, hslicelen]; exact hlen, ?_, ?_⟩
  · intro r hr
    rw [hlead] at hr
    obtain ⟨sc, hsc, hl, -, -, -, -, -⟩ := mem_filteredStage hr
    obtain ⟨pr, hpr, hsceq⟩ := mem_scoredStage hsc
    have hmem : pr.1 ∈ effectiveSlice env.envMaxLeads opts.maxLeads leads := by
      obtain ⟨a, b⟩ := pr
      exact (List.of_mem_zip hpr).1
    rw [hl, hsceq]
    rw [hslice] at hmem
    exact hmem
  · intro le hle
    constructor
    · intro hlel
      unfold leadEmbeddingsUsed
      rw [hle]
      simp [hslicelen, hlel]
    · intro hlel
      unfold leadEmbeddingsUsed
      rw [hle, hslice]
      have hne : ¬(le.length = m ⊓ leads.length) := by
        omega
      simp [hne]

/-- Witness for C10: two leads, `maxLeads = 1`, so only the first lead is
scored and `totalProcessed = 1`. -/
theorem claim10_max_leads_truncation_witness :
    effectiveMaxLeads unitEnvHalf.envMaxLeads (some 1) = some 1 ∧ 1 < ([10, 20] : List Nat).length ∧
    rankLeadsAgainstPersona unitEnvHalf [10, 20] "hello friend" ⟨none, some 1, none⟩ =
      .ok { rankedLeads := [{ lead := 10, score := 3 / 4, similarity := 1 / 2, rank := 1 }],
            totalProcessed := 1, totalMatched := 1 } ∧
    ({ rankedLeads := [{ lead := 10, score := 3 / 4, similarity := 1 / 2, rank := 1 }],
       totalProcessed := 1, totalMatched := 1 } : RankOutput Nat).totalProcessed = 1 :=
  ⟨by decide, by decide, by with_unfolding_all decide,
   (claim10_max_leads_truncation unitEnvHalf [10, 20] "hello friend" ⟨none, some 1, none⟩ _ 1
     (by decide) (by decide) (by with_unfolding_all decide)).1⟩

/-! ## Claim C2 -/

/-- Dropping an element that fails the filter makes the filtered list
strictly shorter. -/
theorem length_filter_lt_of_mem {β : Type} {p : β → Bool} :
    ∀ {l : List β} {x : β}, x ∈ l → p x = false → (l.filter p).length < l.length := by
  intro l
  induction l with
  | nil => intro x hx; cases hx
  | cons y t ih =>
    intro x hx hpx
    rcases List.mem_cons.mp hx with rfl | hxt
    · rw [List.filter_cons, hpx]
      exact Nat.lt_succ_of_le (List.length_filter_le p t)
    · rw [List.filter_cons]
      cases hpy : p y
      · exact Nat.lt_succ_of_lt (ih hxt hpx)
      · simpa using Nat.succ_lt_succ (ih hxt hpx)

/-- Dense rank assignment: the entry at position `i` of the ranked list
carries rank `i + 1`. -/
theorem rankedStage_rank_dense {α E : Type} (env : RankEnv α E) (leads : List α)
    (chars : String) (opts : RankOptions E) (i : Nat)
    (hi : i < (rankedStage env leads chars opts).length) :
    ((rankedStage env leads chars opts).get ⟨i, hi⟩).rank = i + 1 := by
  have hi' := hi
  unfold rankedStage assignRanks at hi' ⊢
  rw [List.get_eq_getElem]
  rw [List.getElem_map]
  rw [List.getElem_enum]

/-- C2: the scoring engine ranks by a stable descending sort (ties keep input
order), assigns dense ranks 1..K, truncates to the caller's top-N (default
10), and only then removes entries below the 0.3 floor — so a below-floor
entry at position 10 of the truncated list shrinks the result below 10
entries, never backfilled from rank 11 onward. -/
theorem claim2_rank_truncate_filter {α E : Type} (env : RankEnv α E) (leads : List α)
    (chars : String) (opts : RankOptions E) (out : RankOutput α)
    (h : rankLeadsAgainstPersona env leads chars opts = .ok out) :
    C2Conclusion env leads chars opts out := by
  obtain ⟨hlead, -, -⟩ := rankLeads_ok h
  refine ⟨List.perm_insertionSort scoreGE _, List.sorted_insertionSort scoreGE _, ?_, ?_, ?_, ?_, ?_⟩
  · intro a b hsub hle
    exact List.pair_sublist_insertionSort hle hsub
  · intro i hi
    exact rankedStage_rank_dense env leads chars opts i hi
  · rw [hlead]; rfl
  · rw [hlead]; exact filteredStage_subset_ranked
  · intro hi htop hscore
    have hx := List.get_mem (rankedStage env leads chars opts) 9 hi
    have hpx : (fun item => decide (MIN_SCORE ≤ item.score))
        ((rankedStage env leads chars opts).get ⟨9, hi⟩) = false := by
      simpa using hscore
    have hlt : ((rankedStage env leads chars opts).filter
        (fun item => decide (MIN_SCORE ≤ item.score))).length <
        (rankedStage env leads chars opts).length :=
      length_filter_lt_of_mem hx hpx
    have hle : (rankedStage env leads chars opts).length ≤ 10 := by
      unfold rankedStage assignRanks
      rw [List.length_map, List.enum_length, List.length_take, htop]
      simp only [Option.getD_none, TOP_N]
      omega
    have : out.rankedLeads.length < (rankedStage env leads chars opts).length := by
      rw [hlead]
      unfold filteredStage
      exact hlt
    omega

/-- Witness for C2: ten leads with strictly decreasing scores, the tenth
below the floor; every clause of the conclusion holds and the result has
nine entries. -/
theorem claim2_rank_truncate_filter_witness :
    rankLeadsAgainstPersona qEnv tenLeads "hello friend" ⟨none, none, some tenEmbeddings⟩ =
      .ok tenOut ∧
    C2Conclusion qEnv tenLeads "hello friend" ⟨none, none, some tenEmbeddings⟩ tenOut ∧
    (rankedStage qEnv tenLeads "hello friend" ⟨none, none, some tenEmbeddings⟩).length = 10 ∧
    (filteredStage qEnv tenLeads "hello friend" ⟨none, none, some tenEmbeddings⟩).length = 9 :=
  ⟨by with_unfolding_all decide,
   claim2_rank_truncate_filter _ _ _ _ _ (by with_unfolding_all decide),
   by with_unfolding_all decide, by with_unfolding_all decide⟩

/-! ## Claim C7 -/

/-- C7 counterexample: the free-form path applies the markdown stripper, so a
label-free input containing a bullet marker is not reproduced verbatim:
`"- software engineers"` parses to `"Target profile: software engineers"`,
not to `"Target profile: - software engineers"` as the claim requires. -/
theorem claim7_freeform_not_verbatim :
    containsLabel kwTarget (jsTrim ("- software engineers" : String).data) = false ∧
    containsLabel kwAvoid (jsTrim ("- software engineers" : String).data) = false ∧
    containsLabel kwPrefer (jsTrim ("- software engineers" : String).data) = false ∧
    parseProfileForEmbedding "- software engineers" =
      { targetText := "Target profile: software engineers", avoidText := none
        preferText := none } ∧
    ("Target profile: software engineers" : String) ≠
      "Target profile: " ++ "- software engineers" :=
  ⟨by decide, by decide, by decide, by decide, by decide⟩

/-- C7 (amended): for every input whose trimmed text is non-empty and
contains no Target/Avoid/Prefer section label, the parser puts the whole
trimmed text, with common markdown stripped, into the Target slot behind the
fixed tag (verbatim whenever the text contains no markdown), with Avoid and
Prefer absent; in particular `"I want software engineers"` yields exactly
`Target profile: I want software engineers` with Avoid and Prefer `none`. -/
theorem claim7_freeform_target :
    (∀ s : String,
      containsLabel kwTarget (jsTrim s.data) = false →
      containsLabel kwAvoid (jsTrim s.data) = false →
      containsLabel kwPrefer (jsTrim s.data) = false →
      jsTrim s.data ≠ [] →
      parseProfileForEmbedding s =
        { targetText := "Target profile: " ++ (stripMarkdown (jsTrim s.data)).asString
          avoidText := none, preferText := none }) ∧
    parseProfileForEmbedding "I want software engineers" =
      { targetText := "Target profile: I want software engineers"
        avoidText := none, preferText := none } := by
  constructor
  · intro s h1 h2 h3 hne
    have hpos : 0 < (jsTrim s.data).length := List.length_pos.mpr hne
    simp [parseProfileForEmbedding, h1, h2, h3, hpos]
  · decide

/-- Witness for the amended C7 at a second concrete free-form persona. -/
theorem claim7_freeform_target_witness :
    (containsLabel kwTarget (jsTrim ("backend developers in fintech" : String).data) = false ∧
     containsLabel kwAvoid (jsTrim ("backend developers in fintech" : String).data) = false ∧
     containsLabel kwPrefer (jsTrim ("backend developers in fintech" : String).data) = false ∧
     jsTrim ("backend developers in fintech" : String).data ≠ []) ∧
    parseProfileForEmbedding "backend developers in fintech" =
      { targetText := "Target profile: backend developers in fintech"
        avoidText := none, preferText := none } :=
  ⟨⟨by decide, by decide, by decide, by decide⟩, by
    have h := claim7_freeform_target.1 "backend developers in fintech"
      (by decide) (by decide) (by decide) (by decide)
    rw [h]
    decide⟩

/-! ## Helper lemmas about the optimization loop -/

theorem afterEval_history (st : OptState) (score : ℚ) :
    (afterEval st score).history = st.history ++ [(st.currentPrompt, score)] := by
  simp only [afterEval]
  split <;> rfl

theorem afterEval_trace (st : OptState) (score : ℚ) :
    (afterEval st score).trace = st.trace ++ [.evaluated st.currentPrompt score] := by
  simp only [afterEval]
  split <;> rfl

theorem afterEval_best_mono (st : OptState) (score : ℚ) :
    st.bestScore ≤ (afterEval st score).bestScore := by
  simp only [afterEval]
  split
  · next hlt => exact le_of_lt hlt
  · exact le_refl _

theorem afterEval_score_le (st : OptState) (score : ℚ) :
    score ≤ (afterEval st score).bestScore := by
  simp only [afterEval]
  split
  · exact le_refl _
  · next hnlt => exact not_lt.mp hnlt

/-- The proposal phase makes one call (when the first proposal differs from
the current text after normalization) or exactly two calls (the second with
the must-differ flag), and the accepted next prompt is either the best-known
prompt (malformed-proposal fallback) or a text of length at least 20. -/
theorem proposePhase_ok_shape {env : OptEnv} {k : Nat} {cur : String} {score : ℚ}
    {recent : List (String × ℚ)} {best : String} {out : ProposeOutcome}
    (h : proposePhase env k cur score recent best = .ok out) :
    (out.events = [.proposed cur false] ∧ out.calls = k + 1 ∨
      out.events = [.proposed cur false, .proposed cur true] ∧ out.calls = k + 2) ∧
    (out.nextPrompt = best ∨ 20 ≤ out.nextPrompt.length) := by
  unfold proposePhase at h
  cases hp1 : env.propose k cur score recent false with
  | error e => rw [hp1] at h; exact absurd h (by simp)
  | ok raw =>
    rw [hp1] at h
    by_cases hsame : isSamePrompt (extractPromptOnly raw) cur
    · simp only [hsame, if_true] at h
      cases hp2 : env.propose (k + 1) cur score recent true with
      | error e => rw [hp2] at h; exact absurd h (by simp)
      | ok raw2 =>
        rw [hp2] at h
        injection h with h
        subst h
        refine ⟨Or.inr ⟨rfl, rfl⟩, ?_⟩
        by_cases hshort : extractPromptOnly raw2 = "" ∨ (extractPromptOnly raw2).length < 20
        · exact Or.inl (by simp [hshort])
        · right
          have h20 : ¬(extractPromptOnly raw2).length < 20 := fun hc => hshort (Or.inr hc)
          simp only [hshort, if_false]
          omega
    · simp only [hsame, if_false] at h
      injection h with h
      subst h
      refine ⟨Or.inl ⟨rfl, rfl⟩, ?_⟩
      by_cases hshort : extractPromptOnly raw = "" ∨ (extractPromptOnly raw).length < 20
      · exact Or.inl (by simp [hshort])
      · right
        have h20 : ¬(extractPromptOnly raw).length < 20 := fun hc => hshort (Or.inr hc)
        simp only [hshort, if_false]
        omega

/-- A total proposal capability makes the proposal phase total. -/
theorem proposePhase_ok_total (env : OptEnv)
    (hp : ∀ (k : Nat) (p : String) (s : ℚ) (rh : List (String × ℚ)) (rd : Bool),
      ∃ t, env.propose k p s rh rd = .ok t)
    (k : Nat) (cur : String) (score : ℚ) (recent : List (String × ℚ)) (best : String) :
    ∃ out, proposePhase env k cur score recent best = .ok out := by
  obtain ⟨t1, h1⟩ := hp k cur score recent false
  obtain ⟨t2, h2⟩ := hp (k + 1) cur score recent true
  unfold proposePhase
  rw [h1]
  by_cases hsame : isSamePrompt (extractPromptOnly t1) cur
  · simp only [hsame, if_true, h2]
    exact ⟨_, rfl⟩
  · simp only [hsame, if_false]
    exact ⟨_, rfl⟩

/-- Master invariant of the optimization loop: on a successful run the best
score never decreases, the history only grows, every history entry's score is
bounded by the final best score (given the same bound initially), each
iteration contributes exactly one evaluation event, and a run of at least one
iteration ends on an evaluation event. -/
theorem optLoop_ok_facts (env : OptEnv) :
    ∀ (n : Nat) (st st' : OptState), optLoop env n st = .ok st' →
      st.bestScore ≤ st'.bestScore ∧
      (∃ t, st'.history = st.history ++ t) ∧
      ((∀ p ∈ st.history, p.2 ≤ st.bestScore) → ∀ p ∈ st'.history, p.2 ≤ st'.bestScore) ∧
      st'.trace.countP isEvalEvent = st.trace.countP isEvalEvent + n ∧
      (1 ≤ n → ∃ q s, st'.trace.getLast? = some (.evaluated q s)) := by
  intro n
  induction n with
  | zero =>
    intro st st' h
    simp only [optLoop] at h
    injection h with h
    subst h
    exact ⟨le_refl _, ⟨[], by simp⟩, fun hb => hb, by simp, by omega⟩
  | succ k ih =>
    intro st st' h
    simp only [optLoop] at h
    split at h
    · exact absurd h (by simp)
    · next score hev =>
      split at h
      · next hk =>
        injection h with h
        subst h
        refine ⟨afterEval_best_mono st score,
          ⟨[(st.currentPrompt, score)], afterEval_history st score⟩, ?_, ?_, ?_⟩
        · intro hb p hp
          rw [afterEval_history] at hp
          rcases List.mem_append.mp hp with hold | hnew
          · exact le_trans (hb p hold) (afterEval_best_mono st score)
          · rcases List.mem_singleton.mp hnew with rfl
            exact afterEval_score_le st score
        · rw [afterEval_trace, List.countP_append]
          simp [isEvalEvent, hk]
        · intro _
          exact ⟨st.currentPrompt, score, by rw [afterEval_trace]; exact List.getLast?_concat _⟩
      · next hk =>
        split at h
        · exact absurd h (by simp)
        · next out hpp =>
          obtain ⟨hbest, ⟨t, hhist⟩, hinv, hcount, -⟩ :=
            ih (applyProposal (afterEval st score) out) st' h
          have happ_hist : (applyProposal (afterEval st score) out).history =
              st.history ++ [(st.currentPrompt, score)] := by
            simp only [applyProposal]
            exact afterEval_history st score
          have happ_best : (applyProposal (afterEval st score) out).bestScore =
              (afterEval st score).bestScore := rfl
          have happ_trace : (applyProposal (afterEval st score) out).trace =
              st.trace ++ [.evaluated st.currentPrompt score] ++ out.events := by
            simp only [applyProposal]
            rw [afterEval_trace]
          refine ⟨le_trans (afterEval_best_mono st score) (happ_best ▸ hbest),
            ⟨(st.currentPrompt, score) :: t, by rw [hhist, happ_hist, List.append_assoc]; rfl⟩,
            ?_, ?_, ?_⟩
          · intro hb
            refine hinv ?_
            intro p hp
            rw [happ_hist] at hp
            rw [happ_best]
            rcases List.mem_append.mp hp with hold | hnew
            · exact le_trans (hb p hold) (afterEval_best_mono st score)
            · rcases List.mem_singleton.mp hnew with rfl
              exact afterEval_score_le st score
          · rw [hcount, happ_trace]
            have hout : out.events.countP isEvalEvent = 0 := by
              rcases (proposePhase_ok_shape hpp).1 with ⟨he, -⟩ | ⟨he, -⟩ <;>
                simp [he, isEvalEvent]
            rw [List.countP_append, List.countP_append, hout]
            simp [isEvalEvent]
            omega
          · intro _
            obtain ⟨-, -, -, -, hlast⟩ := ih (applyProposal (afterEval st score) out) st' h
            exact hlast (by omega)

/-- With a total proposal capability, the loop can fail only through the
evaluation (embedding/scoring) path. -/
theorem optLoop_error_from_evaluate (env : OptEnv)
    (hp : ∀ (k : Nat) (p : String) (s : ℚ) (rh : List (String × ℚ)) (rd : Bool),
      ∃ t, env.propose k p s rh rd = .ok t) :
    ∀ (n : Nat) (st : OptState) (e : String), optLoop env n st = .error e →
      ∃ prompt, env.evaluate prompt = .error e := by
  intro n
  induction n with
  | zero =>
    intro st e h
    simp [optLoop] at h
  | succ k ih =>
    intro st e h
    simp only [optLoop] at h
    split at h
    · next e' hev =>
      injection h with h
      subst h
      exact ⟨st.currentPrompt, hev⟩
    · next score hev =>
      split at h
      · exact absurd h (by simp)
      · next hk =>
        split at h
        · next e' hpp =>
          obtain ⟨out, hout⟩ := proposePhase_ok_total env hp
            (afterEval st score).proposeCalls (afterEval st score).currentPrompt score
            (sliceLast3 (afterEval st score).history) (afterEval st score).bestPrompt
          rw [hout] at hpp
          exact absurd hpp (by simp)
        · next out hpp =>
          exact ih (applyProposal (afterEval st score) out) e h

/-! ## Claim C4 -/

/-- C4: a completed run of `runOptimization` (at least one iteration, which
every caller guarantees) returns a best score at least the Spearman score of
the initial persona evaluated alone: the first evaluation is recorded first
in the history, the −2 sentinel never survives an initial evaluation above
it, and the best score bounds every history entry's score — it never
regresses across iterations, whatever the proposal oracle answers. -/
theorem claim4_best_score_never_regresses (env : OptEnv) (initialPrompt : String)
    (maxIterations : Nat) (res : OptimizationResult) (s0 : ℚ)
    (hIter : 1 ≤ maxIterations)
    (hrun : runOptimization env initialPrompt maxIterations = .ok res)
    (heval : env.evaluate initialPrompt = .ok s0) :
    s0 ≤ res.bestScore ∧ res.history.head? = some (initialPrompt, s0) ∧
    (-2 : ℚ) ≤ res.bestScore ∧ ∀ p ∈ res.history, p.2 ≤ res.bestScore := by
  unfold runOptimization at hrun
  cases hst : runOptimizationState env initialPrompt maxIterations with
  | error e => rw [hst] at hrun; exact absurd hrun (by simp [Except.map])
  | ok st =>
    rw [hst] at hrun
    simp only [Except.map] at hrun
    injection hrun with hrun
    subst hrun
    obtain ⟨k, rfl⟩ : ∃ k, maxIterations = k + 1 := ⟨maxIterations - 1, by omega⟩
    unfold runOptimizationState at hst
    set st0 : OptState :=
      { bestPrompt := initialPrompt, bestScore := -2, history := []
        currentPrompt := initialPrompt, proposeCalls := 0, trace := [] }
    simp only [optLoop] at hst
    split at hst
    · next e hev =>
      have hev' : env.evaluate initialPrompt = .error e := hev
      rw [heval] at hev'
      exact absurd hev' (by simp)
    · next score hev =>
      have hev' : env.evaluate initialPrompt = .ok score := hev
      rw [heval] at hev'
      injection hev' with hev'
      subst hev'
      have hhist0 : (afterEval st0 s0).history = [(initialPrompt, s0)] := by
        rw [afterEval_history]
        rfl
      have hs0le : s0 ≤ (afterEval st0 s0).bestScore := afterEval_score_le st0 s0
      have hm2le : (-2 : ℚ) ≤ (afterEval st0 s0).bestScore := afterEval_best_mono st0 s0
      split at hst
      · next hk =>
        injection hst with hst
        subst hst
        refine ⟨hs0le, ?_, hm2le, ?_⟩
        · show (afterEval st0 s0).history.head? = some (initialPrompt, s0)
          rw [hhist0]
          rfl
        · intro p hp
          have hp' : p ∈ (afterEval st0 s0).history := hp
          rw [hhist0] at hp'
          rcases List.mem_singleton.mp hp' with rfl
          exact hs0le
      · next hk =>
        split at hst
        · exact absurd hst (by simp)
        · next out hpp =>
          obtain ⟨hbest, ⟨t, hhist⟩, hinv, -, -⟩ :=
            optLoop_ok_facts env k (applyProposal (afterEval st0 s0) out) st hst
          have happ_hist : (applyProposal (afterEval st0 s0) out).history =
              [(initialPrompt, s0)] := by
            simp only [applyProposal]
            exact hhist0
          have happ_best : (applyProposal (afterEval st0 s0) out).bestScore =
              (afterEval st0 s0).bestScore := rfl
          have hsle : s0 ≤ st.bestScore := le_trans hs0le (happ_best ▸ hbest)
          refine ⟨hsle, ?_, le_trans hm2le (happ_best ▸ hbest), ?_⟩
          · show st.history.head? = some (initialPrompt, s0)
            rw [hhist, happ_hist]
            rfl
          · intro p hp
            have hp' : p ∈ st.history := hp
            refine hinv ?_ p hp'
            intro q hq
            rw [happ_hist] at hq
            rcases List.mem_singleton.mp hq with rfl
            rw [happ_best]
            exact hs0le

/-- Witness for C4: a two-iteration run with constant evaluation score `1/2`
and a well-formed proposal. -/
theorem claim4_best_score_never_regresses_witness :
    (1 ≤ 2 ∧
     runOptimization envBenign initPersona 2 = .ok benignRes ∧
     envBenign.evaluate initPersona = .ok (1 / 2)) ∧
    ((1 : ℚ) / 2 ≤ benignRes.bestScore ∧
     benignRes.history.head? = some (initPersona, 1 / 2) ∧
     (-2 : ℚ) ≤ benignRes.bestScore ∧
     ∀ p ∈ benignRes.history, p.2 ≤ benignRes.bestScore) :=
  ⟨⟨by omega, by with_unfolding_all decide, rfl⟩,
   claim4_best_score_never_regresses envBenign initPersona 2 benignRes (1 / 2)
     (by omega) (by with_unfolding_all decide) rfl⟩

/-! ## Claim C6 -/

/-- C6: with `maxIterations = 1` the optimizer performs exactly one
evaluation (of the initial persona) and zero proposal calls, returning the
initial text as best prompt with the current persona still equal to it; in
general a successful run makes exactly `maxIterations` evaluations and its
final capability call is an evaluation, never a further proposal. -/
theorem claim6_single_iteration (env : OptEnv) (initialPrompt : String) (s0 : ℚ)
    (heval : env.evaluate initialPrompt = .ok s0) :
    runOptimizationState env initialPrompt 1 =
      .ok { bestPrompt := initialPrompt,
            bestScore := if (-2 : ℚ) < s0 then s0 else -2,
            history := [(initialPrompt, s0)],
            currentPrompt := initialPrompt,
            proposeCalls := 0,
            trace := [.evaluated initialPrompt s0] } ∧
    (∀ (maxIterations : Nat) (st : OptState), 1 ≤ maxIterations →
      runOptimizationState env initialPrompt maxIterations = .ok st →
      st.trace.countP isEvalEvent = maxIterations ∧
      ∃ q s, st.trace.getLast? = some (.evaluated q s)) := by
  constructor
  · unfold runOptimizationState
    simp only [optLoop, heval, afterEval]
    norm_num
    split <;> simp
  · intro maxIter st h1 hrun
    unfold runOptimizationState at hrun
    obtain ⟨-, -, -, hcount, hlast⟩ := optLoop_ok_facts env maxIter _ st hrun
    refine ⟨by simpa using hcount, hlast h1⟩

/-- Witness for C6: the benign environment, one iteration. -/
theorem claim6_single_iteration_witness :
    envBenign.evaluate initPersona = .ok (1 / 2) ∧
    (runOptimizationState envBenign initPersona 1 =
      .ok { bestPrompt := initPersona,
            bestScore := if (-2 : ℚ) < 1 / 2 then 1 / 2 else -2,
            history := [(initPersona, 1 / 2)],
            currentPrompt := initPersona,
            proposeCalls := 0,
            trace := [.evaluated initPersona (1 / 2)] } ∧
     (∀ (maxIterations : Nat) (st : OptState), 1 ≤ maxIterations →
      runOptimizationState envBenign initPersona maxIterations = .ok st →
      st.trace.countP isEvalEvent = maxIterations ∧
      ∃ q s, st.trace.getLast? = some (.evaluated q s))) :=
  ⟨rfl, claim6_single_iteration envBenign initPersona (1 / 2) rfl⟩

/-! ## Claim C8 -/

/-- C8 counterexample: there is no try/catch around the proposal calls, so a
failing proposal capability aborts the whole optimization run even though the
evaluation (embedding/scoring) path never fails. -/
theorem claim8_propose_error_aborts :
    runOptimizationState envProposeFails initPersona 2 = .error "proposal failed" ∧
    envProposeFails.evaluate initPersona = .ok 0 ∧
    envProposeFails.evaluate "TARGET: SOFTWARE ENGINEERS NOW" = .ok 0 :=
  ⟨by with_unfolding_all decide, rfl, rfl⟩

/-- C8 (amended): when every proposal call returns (possibly malformed) text,
the run can fail only through the evaluation path; a malformed final proposal
(absent or shorter than 20 characters) never becomes the next current text —
the loop falls back to the best-known prompt, so the accepted next prompt is
either the best-known prompt or a text of length at least 20.  A proposal
call that throws, however, propagates and aborts the run (see the
counterexample). -/
theorem claim8_malformed_recovered (env : OptEnv)
    (hp : ∀ (k : Nat) (p : String) (s : ℚ) (rh : List (String × ℚ)) (rd : Bool),
      ∃ t, env.propose k p s rh rd = .ok t) :
    (∀ (init : String) (maxIter : Nat) (e : String),
      runOptimizationState env init maxIter = .error e →
      ∃ prompt, env.evaluate prompt = .error e) ∧
    (∀ (k : Nat) (cur : String) (score : ℚ) (recent : List (String × ℚ))
        (best : String) (out : ProposeOutcome),
      proposePhase env k cur score recent best = .ok out →
      out.nextPrompt = best ∨ 20 ≤ out.nextPrompt.length) := by
  constructor
  · intro init maxIter e hrun
    exact optLoop_error_from_evaluate env hp maxIter _ e hrun
  · intro k cur score recent best out hpp
    exact (proposePhase_ok_shape hpp).2

/-- Witness for the amended C8 at the benign environment. -/
theorem claim8_malformed_recovered_witness :
    (∀ (k : Nat) (p : String) (s : ℚ) (rh : List (String × ℚ)) (rd : Bool),
      ∃ t, envBenign.propose k p s rh rd = .ok t) ∧
    ((∀ (init : String) (maxIter : Nat) (e : String),
      runOptimizationState envBenign init maxIter = .error e →
      ∃ prompt, envBenign.evaluate prompt = .error e) ∧
     (∀ (k : Nat) (cur : String) (score : ℚ) (recent : List (String × ℚ))
        (best : String) (out : ProposeOutcome),
      proposePhase envBenign k cur score recent best = .ok out →
      out.nextPrompt = best ∨ 20 ≤ out.nextPrompt.length)) :=
  ⟨fun _ _ _ _ _ => ⟨"Target: engineers and founders", rfl⟩,
   claim8_malformed_recovered envBenign
     (fun _ _ _ _ _ => ⟨"Target: engineers and founders", rfl⟩)⟩

/-! ## Claim C9 -/

/-- C9 counterexample: `normalizePromptForCompare` does not lowercase, so a
proposal differing from the current persona only in letter case is *not*
treated as the same text: the two-iteration run against the upper-casing
oracle makes exactly one proposal call (`proposeCalls = 1`), with no
must-differ re-request, and adopts the case-variant as the next current
prompt. -/
theorem claim9_case_not_insensitive :
    lowerStr "TARGET: SOFTWARE ENGINEERS NOW" = lowerStr initPersona ∧
    ("TARGET: SOFTWARE ENGINEERS NOW" : String) ≠ initPersona ∧
    isSamePrompt "TARGET: SOFTWARE ENGINEERS NOW" initPersona = false ∧
    runOptimizationState envProposeUpper initPersona 2 = .ok upperRunState ∧
    upperRunState.proposeCalls = 1 :=
  ⟨by decide, by decide, by decide, by with_unfolding_all decide, rfl⟩

/-- C9 (amended): the proposal comparison is whitespace-insensitive only —
`isSamePrompt` holds exactly when the trimmed, whitespace-collapsed texts are
equal (letter case is significant) — and when the first proposal normalizes
to the current persona the loop re-requests exactly once, with the
must-differ flag; otherwise a single proposal call is made. -/
theorem claim9_whitespace_compare_rerequest : C9Conclusion := by
  constructor
  · intro a b
    simp [isSamePrompt]
  · intro env k cur score recent best raw out hp1 hpp
    unfold proposePhase at hpp
    rw [hp1] at hpp
    constructor
    · intro hsame
      simp only [hsame, if_true] at hpp
      cases hp2 : env.propose (k + 1) cur score recent true with
      | error e => rw [hp2] at hpp; exact absurd hpp (by simp)
      | ok raw2 =>
        rw [hp2] at hpp
        injection hpp with hpp
        subst hpp
        exact ⟨rfl, rfl⟩
    · intro hdiff
      simp only [hdiff, Bool.false_eq_true, if_false] at hpp
      injection hpp with hpp
      subst hpp
      exact ⟨rfl, rfl⟩

/-- Witness for the amended C9: the echoing oracle triggers exactly one
re-request with the must-differ flag, and a whitespace-only variation is
treated as the same text. -/
theorem claim9_whitespace_compare_rerequest_witness :
    (isSamePrompt "a  b" "a b" = true ∧
     envProposeEcho.propose 0 initPersona 0 [] false = .ok initPersona ∧
     proposePhase envProposeEcho 0 initPersona 0 [] initPersona = .ok echoOutcome ∧
     isSamePrompt (extractPromptOnly initPersona) initPersona = true) ∧
    echoOutcome.calls = 0 + 2 ∧
    echoOutcome.events = [.proposed initPersona false, .proposed initPersona true] :=
  ⟨⟨by decide, rfl, by with_unfolding_all decide, by decide⟩,
   (claim9_whitespace_compare_rerequest.2 envProposeEcho 0 initPersona 0 [] initPersona
     initPersona echoOutcome rfl (by with_unfolding_all decide)).1 (by decide)⟩

/-! ## Claim C5 -/

theorem zip_self_map (f : ℚ → ℚ) : ∀ l : List ℚ, l.zip (l.map f) = l.map fun x => (x, f x)
  | [] => rfl
  | x :: xs => by rw [List.map_cons, List.zip_cons_cons, zip_self_map f xs, List.map_cons]

theorem list_range_map_sum (f : Nat → ℚ) (n : Nat) :
    ((List.range n).map f).sum = ∑ i in Finset.range n, f i := by
  induction n with
  | zero => simp
  | succ k ih =>
    rw [List.range_succ, List.map_append, List.sum_append, Finset.sum_range_succ, ih]
    simp

theorem sum_range_cast (n : Nat) :
    ∑ i in Finset.range n, (i : ℚ) = n * (n - 1) / 2 := by
  induction n with
  | zero => simp
  | succ k ih =>
    rw [Finset.sum_range_succ, ih]
    push_cast
    ring

theorem sum_range_sq_cast (n : Nat) :
    ∑ i in Finset.range n, (i : ℚ) * i = n * (n - 1) * (2 * n - 1) / 6 := by
  induction n with
  | zero => simp
  | succ k ih =>
    rw [Finset.sum_range_succ, ih]
    push_cast
    ring

/-- The squared rank differences of a ranking against its complement
`x ↦ N + 1 − x` sum to `N(N²−1)/3` over the ranks `1..N`. -/
theorem rev_diff_sq_sum (N : Nat) :
    ∑ i in Finset.range N,
        (2 * ((i : ℚ) + 1) - ((N : ℚ) + 1)) * (2 * ((i : ℚ) + 1) - ((N : ℚ) + 1)) =
      (N : ℚ) * ((N : ℚ) * (N : ℚ) - 1) / 3 := by
  have expand : ∀ i ∈ Finset.range N,
      (2 * ((i : ℚ) + 1) - ((N : ℚ) + 1)) * (2 * ((i : ℚ) + 1) - ((N : ℚ) + 1)) =
        4 * ((i : ℚ) * i) + (4 - 4 * (N : ℚ)) * (i : ℚ) + ((N : ℚ) - 1) * ((N : ℚ) - 1) := by
    intro i _
    ring
  rw [Finset.sum_congr rfl expand, Finset.sum_add_distrib, Finset.sum_add_distrib,
    ← Finset.mul_sum, ← Finset.mul_sum, Finset.sum_const, Finset.card_range,
    sum_range_sq_cast, sum_range_cast, nsmul_eq_mul]
  ring

/-- C5: Spearman correlation of any valid permutation of `1..N` (`N ≥ 2`)
with itself is 1; against its full reversal (the complement ranking
`x ↦ N + 1 − x`) it is −1; mismatched lengths or fewer than two entries give
the neutral 0; and on valid inputs it computes `1 − 6·Σd²/(n(n²−1))`. -/
theorem claim5_spearman_identity_reversal (N : Nat) (hN : 2 ≤ N) (r : List ℚ)
    (hperm : r.Perm (oneToN N)) :
    spearmanCorrelation r r = 1 ∧
    spearmanCorrelation r (r.map fun x => ((N : ℚ) + 1) - x) = -1 ∧
    (∀ ourRanks goldRanks : List ℚ,
      ourRanks.length ≠ goldRanks.length ∨ ourRanks.length < 2 →
      spearmanCorrelation ourRanks goldRanks = 0) ∧
    (∀ ourRanks goldRanks : List ℚ, ourRanks.length = goldRanks.length →
      2 ≤ ourRanks.length →
      spearmanCorrelation ourRanks goldRanks =
        1 - 6 * (((ourRanks.zip goldRanks).map fun p => (p.1 - p.2) * (p.1 - p.2)).sum) /
          ((ourRanks.length : ℚ) * ((ourRanks.length : ℚ) * (ourRanks.length : ℚ) - 1))) := by
  have hlen : r.length = N := by
    rw [hperm.length_eq]
    unfold oneToN
    rw [List.length_map, List.length_range]
  refine ⟨?_, ?_, ?_, ?_⟩
  · simp only [spearmanCorrelation]
    rw [if_neg (by omega)]
    have hz : r.zip r = r.map fun x => (x, x) := by
      have h := zip_self_map id r
      simpa using h
    rw [hz, List.map_map, List.map_map]
    have hzero : (r.map (((fun x => x * x) ∘ fun p : ℚ × ℚ => p.1 - p.2) ∘
        fun x => (x, x))).sum = 0 := by
      simp [Function.comp_def]
    rw [hzero]
    simp
  · simp only [spearmanCorrelation]
    have hmaplen : (r.map fun x => ((N : ℚ) + 1) - x).length = r.length := List.length_map _ _
    rw [if_neg (by rw [hmaplen]; omega)]
    rw [zip_self_map (fun x => ((N : ℚ) + 1) - x) r, List.map_map, List.map_map]
    have hsum := (hperm.map (((fun x => x * x) ∘ fun p : ℚ × ℚ => p.1 - p.2) ∘
      fun x => (x, ((N : ℚ) + 1) - x))).sum_eq
    rw [hsum]
    simp only [oneToN, List.map_map]
    rw [list_range_map_sum]
    have hcong : ∀ i ∈ Finset.range N,
        ((((fun x => x * x) ∘ fun p : ℚ × ℚ => p.1 - p.2) ∘
          fun x => (x, ((N : ℚ) + 1) - x)) ∘ fun k : ℕ => (k : ℚ) + 1) i =
        (2 * ((i : ℚ) + 1) - ((N : ℚ) + 1)) * (2 * ((i : ℚ) + 1) - ((N : ℚ) + 1)) := by
      intro i _
      simp only [Function.comp_def]
      ring
    rw [Finset.sum_congr rfl hcong, rev_diff_sq_sum, hlen]
    have h2 : (2 : ℚ) ≤ (N : ℚ) := by exact_mod_cast hN
    have hNne : (N : ℚ) * ((N : ℚ) * (N : ℚ) - 1) ≠ 0 := by
      have hpos : (0 : ℚ) < (N : ℚ) * ((N : ℚ) * (N : ℚ) - 1) := by nlinarith
      exact ne_of_gt hpos
    field_simp
    ring
  · intro ourRanks goldRanks hcase
    simp only [spearmanCorrelation]
    rw [if_pos hcase]
  · intro ourRanks goldRanks hlen2 h2
    simp only [spearmanCorrelation]
    rw [if_neg (by omega), List.map_map]
    rfl

/-- Witness for C5 at `N = 2`, `r = [1, 2]`. -/
theorem claim5_spearman_identity_reversal_witness :
    (2 ≤ 2 ∧ ([1, 2] : List ℚ).Perm (oneToN 2)) ∧
    (spearmanCorrelation [1, 2] [1, 2] = 1 ∧
     spearmanCorrelation [1, 2] (([1, 2] : List ℚ).map fun x => ((2 : ℚ) + 1) - x) = -1 ∧
     (∀ ourRanks goldRanks : List ℚ,
       ourRanks.length ≠ goldRanks.length ∨ ourRanks.length < 2 →
       spearmanCorrelation ourRanks goldRanks = 0) ∧
     (∀ ourRanks goldRanks : List ℚ, ourRanks.length = goldRanks.length →
       2 ≤ ourRanks.length →
       spearmanCorrelation ourRanks goldRanks =
         1 - 6 * (((ourRanks.zip goldRanks).map fun p => (p.1 - p.2) * (p.1 - p.2)).sum) /
           ((ourRanks.length : ℚ) * ((ourRanks.length : ℚ) * (ourRanks.length : ℚ) - 1)))) :=
  ⟨⟨by omega, by with_unfolding_all decide⟩,
   claim5_spearman_identity_reversal 2 (by omega) [1, 2] (by with_unfolding_all decide)⟩
